import Mathlib

/-!
# LED buffer wrapper of rpi-ws281x-go (ws2811.go.h, ws2811.go.c)

A shallow embedding of the C functions of the wrapper and proofs of the
properties the specification states about them.  Five of the six functions are
embedded.  The sixth, ws2811_clear_all (ws2811.go.h, lines 31 to 35), is not:
its line 33 reads `ws2811_clear_channel(ws2811, chan) {`, an opening brace
where the semicolon of a call statement belongs, so the text is not a C
function (its braces do not balance) and has no behaviour to embed.  What the
specification says of ClearAll is stated below for the calls of
ws2811_clear_channel themselves (`clear_channels`).

## Memory model

* A value of C type int is an `Int`; the functions are defined on all
  integers, so what is proved of them holds for every int a caller can pass.
  A uint32_t is a `Nat` below 2 ^ 32, a byte a `Nat` below 256.
* A size_t is a `Nat`.  The target is taken to have a 64-bit size_t and a
  32-bit int: sizeof(ws2811_led_t) * count does not wrap for a count that is
  not negative, and a negative int used as a size, also after the
  multiplication by sizeof(ws2811_led_t), is at least 2 ^ 64 - 2 ^ 33, an
  access outside every object (see `size_arg`).  With a 32-bit size_t the
  product can wrap to a small size for some negative counts; no theorem below
  is about a negative count.
* The object a channel's `leds` pointer designates is the list of its bytes;
  its length is the allocated size in bytes.  Each channel owns its own
  object (the driver allocates one buffer per channel), so the object is kept
  inside the channel record.
* Every function that dereferences memory returns an `Option`: `none` is the
  out-of-bounds branch, an access that leaves the channel array, the object
  behind `leds` or the bitmap (undefined behaviour in C).
* The header ws2811.h of the underlying driver is not part of the sources.
  Of its types only the two fields the wrapper touches (`leds`, `count`) are
  kept, and its constant RPI_PWM_CHANNELS is a parameter of every definition
  that needs it.
-/

namespace Ws2811

/-! ## Machine words and bytes -/

/-- Byte order in which the target keeps the four bytes of a uint32_t. -/
inductive ByteOrder where
  | little
  | big
  deriving DecidableEq, Repr

/-- The value of sizeof(ws2811_led_t); ws2811_led_t is uint32_t. -/
def sizeof_led_t : Nat := 4

/-- The four bytes, in memory order, of the uint32_t that `v` converts to. -/
def store32 (e : ByteOrder) (v : Nat) : List Nat :=
  let w := v % 2 ^ 32
  match e with
  | .little => [w % 256, w / 256 % 256, w / 65536 % 256, w / 16777216 % 256]
  | .big => [w / 16777216 % 256, w / 65536 % 256, w / 256 % 256, w % 256]

/-- The uint32_t whose bytes, in memory order, are b0 b1 b2 b3. -/
def word32 (e : ByteOrder) (b0 b1 b2 b3 : Nat) : Nat :=
  match e with
  | .little => b0 + 256 * b1 + 65536 * b2 + 16777216 * b3
  | .big => b3 + 256 * b2 + 65536 * b1 + 16777216 * b0

/-- The uint32_t whose bytes, in memory order, are the first four of `bs`. -/
def load32 (e : ByteOrder) (bs : List Nat) : Nat :=
  word32 e (bs.getD 0 0) (bs.getD 1 0) (bs.getD 2 0) (bs.getD 3 0)

/-- A size_t argument computed from an int, for a 64-bit size_t and a 32-bit
int.  A non-negative int converts to itself.  A negative int n converts to
2 ^ 64 + n, and four times that is 2 ^ 64 + 4 * n modulo 2 ^ 64, at least
2 ^ 64 - 2 ^ 33 either way: more than the size of any object, so the access
that uses it leaves the object: `none`. -/
def size_arg (n : Int) : Option Nat :=
  if 0 ≤ n then some n.toNat else none

/-- Overwrite the bytes of the object `mem` at offsets off .. off + |src| - 1
by `src`; `none` when that range is not inside the object. -/
def store_bytes (mem : List Nat) (off : Nat) (src : List Nat) : Option (List Nat) :=
  if off + src.length ≤ mem.length then
    some (mem.take off ++ src ++ mem.drop (off + src.length))
  else none

/-- The call memset(dst, c, n) of the C library on the object `dst`: the first
n bytes become (unsigned char) c. -/
def memset (dst : List Nat) (c : Nat) (n : Nat) : Option (List Nat) :=
  store_bytes dst 0 (List.replicate n (c % 256))

/-- The call memcpy(dst, src, n) of the C library: the first n bytes of the
object `src` are copied to the start of the object `dst`; `none` when either
object has fewer than n bytes. -/
def memcpy (dst src : List Nat) (n : Nat) : Option (List Nat) :=
  if n ≤ src.length then store_bytes dst 0 (src.take n) else none

/-- The lvalue p[i] of a ws2811_led_t array `p` read as a value: the uint32_t
at byte offset 4 * i; `none` when it is not inside the object. -/
def led_at (e : ByteOrder) (p : List Nat) (i : Int) : Option Nat :=
  if 0 ≤ i ∧ sizeof_led_t * i.toNat + sizeof_led_t ≤ p.length then
    some (load32 e ((p.drop (sizeof_led_t * i.toNat)).take sizeof_led_t))
  else none

/-! ## Data model -/

/-- The fields of ws2811_channel_t the wrapper uses: the object behind the
pointer `leds` (its bytes) and the int `count`. -/
structure ws2811_channel_t where
  leds : List Nat
  count : Int
  deriving DecidableEq, Repr

/-- The field of ws2811_t the wrapper uses: the array `channel`. -/
structure ws2811_t where
  channel : List ws2811_channel_t
  deriving DecidableEq, Repr

/-- The element ws2811->channel[chan]; `none` outside the array. -/
def channel_at (ws2811 : ws2811_t) (chan : Int) : Option ws2811_channel_t :=
  if 0 ≤ chan then ws2811.channel[chan.toNat]? else none

/-- The controller in which the object behind ws2811->channel[chan].leds has
the bytes `m`; nothing else differs. -/
def put_leds (ws2811 : ws2811_t) (chan : Int) (ch : ws2811_channel_t) (m : List Nat) :
    ws2811_t :=
  { ws2811 with channel := ws2811.channel.set chan.toNat { ch with leds := m } }

/-! ## The wrapper functions (ws2811.go.h) -/

/-- Embedding of
  void ws2811_set_led(ws2811_t *ws2811, int chan, int index, uint32_t value)
whose body is the assignment ws2811->channel[chan].leds[index] = value. -/
def ws2811_set_led (e : ByteOrder) (ws2811 : ws2811_t) (chan index : Int) (value : Nat) :
    Option ws2811_t :=
  match channel_at ws2811 chan with
  | none => none
  | some ch =>
    if 0 ≤ index then
      match store_bytes ch.leds (sizeof_led_t * index.toNat) (store32 e value) with
      | none => none
      | some m => some (put_leds ws2811 chan ch m)
    else none

/-- Embedding of void ws2811_clear_channel(ws2811_t *ws2811, int chan):
  channel = &ws2811->channel[chan];
  memset(channel->leds, 0, sizeof(ws2811_led_t) * channel->count). -/
def ws2811_clear_channel (ws2811 : ws2811_t) (chan : Int) : Option ws2811_t :=
  match channel_at ws2811 chan with
  | none => none
  | some channel =>
    match size_arg channel.count with
    | none => none
    | some n =>
      match memset channel.leds 0 (sizeof_led_t * n) with
      | none => none
      | some m => some (put_leds ws2811 chan channel m)

/-- Embedding of
  void ws2811_set_bitmap(ws2811_t *ws2811, int chan, void* a, int len)
whose body is memcpy(ws2811->channel[chan].leds, a, len); `a` is the object
the pointer a designates. -/
def ws2811_set_bitmap (ws2811 : ws2811_t) (chan : Int) (a : List Nat) (len : Int) :
    Option ws2811_t :=
  match channel_at ws2811 chan with
  | none => none
  | some ch =>
    match size_arg len with
    | none => none
    | some n =>
      match memcpy ch.leds a n with
      | none => none
      | some m => some (put_leds ws2811 chan ch m)

/-! ## The accessors (ws2811.go.c)

Both take a pointer to const and return a value; the embedding returns the
value together with the controller state after the call. -/

/-- Embedding of ws2811_led_t* ws2811_leds(const ws2811_t* ws2811, int chan):
  return ws2811->channel[chan].leds
The pointer is represented by the object it designates. -/
def ws2811_leds (ws2811 : ws2811_t) (chan : Int) : Option (List Nat × ws2811_t) :=
  match channel_at ws2811 chan with
  | none => none
  | some ch => some (ch.leds, ws2811)

/-- Embedding of int ws2811_leds_count(const ws2811_t* ws2811, int chan):
  return ws2811->channel[chan].count. -/
def ws2811_leds_count (ws2811 : ws2811_t) (chan : Int) : Option (Int × ws2811_t) :=
  match channel_at ws2811 chan with
  | none => none
  | some ch => some (ch.count, ws2811)

/-! ## Pointers to LED objects -/

/-- A value of type ws2811_led_t*, as far as the wrapper meets such values: a
pointer to the start of an object.  `channel_leds k` is the pointer kept in
ws2811->channel[k].leds; it designates the LED object of channel k inside the
controller.  `foreign o` designates an object with the bytes `o` that is not
part of the controller: a buffer of the caller, or a copy. -/
inductive led_ptr where
  | channel_leds (k : Nat)
  | foreign (o : List Nat)
  deriving DecidableEq, Repr

/-- The object the pointer `p` designates, as it is in the controller state
`ws2811`; `none` for a pointer kept in no element of the channel array. -/
def load_leds (ws2811 : ws2811_t) : led_ptr → Option (List Nat)
  | .channel_leds k => (ws2811.channel[k]?).map (fun ch => ch.leds)
  | .foreign o => some o

/-- Embedding of ws2811_led_t* ws2811_leds(const ws2811_t* ws2811, int chan)
at the level of pointer values:
  return ws2811->channel[chan].leds
returns the pointer kept in the channel, with the controller state after the
call.  `ws2811_leds` above is this call followed by the load of the object the
pointer designates. -/
def ws2811_leds_ptr (ws2811 : ws2811_t) (chan : Int) : Option (led_ptr × ws2811_t) :=
  match channel_at ws2811 chan with
  | none => none
  | some _ => some (led_ptr.channel_leds chan.toNat, ws2811)

/-! ## Well-formed controllers -/

/-- The invariant of a channel in the data model: count is not negative and
the count active slots fit in the allocated object. -/
def channel_ok (ch : ws2811_channel_t) : Prop :=
  0 ≤ ch.count ∧ sizeof_led_t * ch.count.toNat ≤ ch.leds.length

instance (ch : ws2811_channel_t) : Decidable (channel_ok ch) := by
  unfold channel_ok; infer_instance

/-- The invariant of a controller: the array `channel` has RPI_PWM_CHANNELS
elements and each of them satisfies the channel invariant. -/
def ws2811_ok (RPI_PWM_CHANNELS : Nat) (ws2811 : ws2811_t) : Prop :=
  ws2811.channel.length = RPI_PWM_CHANNELS ∧ ∀ ch ∈ ws2811.channel, channel_ok ch

instance (N : Nat) (s : ws2811_t) : Decidable (ws2811_ok N s) := by
  unfold ws2811_ok; infer_instance

/-- The channel as a completed ws2811_clear_channel leaves it: the first
sizeof(ws2811_led_t) * count bytes of the object behind `leds` are zero, the
bytes after them and `count` are as before. -/
def zeroed (ch : ws2811_channel_t) : ws2811_channel_t :=
  { ch with
    leds := List.replicate (sizeof_led_t * ch.count.toNat) 0 ++
      ch.leds.drop (sizeof_led_t * ch.count.toNat) }

/-- The calls ws2811_clear_channel(ws2811, chan) for the channel indices of
a list, one after the other in the order of the list.  For the list 0, 1, ...,
RPI_PWM_CHANNELS - 1 this is ClearAll as the specification words it:
ClearChannel applied to every channel index in [0, MAX_CHANNELS), in index
order. -/
def clear_channels (ws2811 : ws2811_t) : List Int → Option ws2811_t
  | [] => some ws2811
  | chan :: rest =>
    match ws2811_clear_channel ws2811 chan with
    | none => none
    | some s => clear_channels s rest

/-- The calls ws2811_set_led(ws2811, chan, i, 0), ws2811_set_led(ws2811, chan,
i + 1, 0), ... : `k` calls in turn. -/
def set_led_zero_loop (e : ByteOrder) (ws2811 : ws2811_t) (chan : Int) (i : Nat) :
    Nat → Option ws2811_t
  | 0 => some ws2811
  | k + 1 =>
    match ws2811_set_led e ws2811 chan i 0 with
    | none => none
    | some s => set_led_zero_loop e s chan (i + 1) k

/-- ClearChannel as the specification words it: for all i in [0, count),
SetLED(i, 0), with count the value ws2811_leds_count returns for the channel. -/
def clear_channel_by_set_led (e : ByteOrder) (ws2811 : ws2811_t) (chan : Int) :
    Option ws2811_t :=
  match ws2811_leds_count ws2811 chan with
  | none => none
  | some (count, s) => set_led_zero_loop e s chan 0 count.toNat

/-! ## Bitmaps -/

/-- The bitmap that represents the values `vs`: for each value in turn its
four bytes in the memory order of a slot. -/
def led_bytes (e : ByteOrder) : List Nat → List Nat
  | [] => []
  | v :: vs => store32 e v ++ led_bytes e vs

/-! ## Frame conditions -/

/-- The object `p` differs from the object `p0` at most in the bytes of its
first `n` slots: it has the size of `p0` and the bytes of `p0` from offset
sizeof(ws2811_led_t) * n on. -/
def written_within (n : Int) (p0 p : List Nat) : Prop :=
  p.length = p0.length ∧ ∀ b : Nat, (sizeof_led_t : Int) * n ≤ b → p[b]? = p0[b]?

/-- The controller `s'` has the shape of `s`: as many channels, and for every
channel the count ws2811_leds_count returns and the size of the sequence
ws2811_leds returns are those of `s`. -/
def keeps_shape (s s' : ws2811_t) : Prop :=
  s'.channel.length = s.channel.length ∧
  (∀ (c n : Int), ws2811_leds_count s c = some (n, s) →
    ws2811_leds_count s' c = some (n, s')) ∧
  (∀ (c : Int) (p : List Nat), ws2811_leds s c = some (p, s) →
    ∃ q, ws2811_leds s' c = some (q, s') ∧ q.length = p.length)

/-- Every channel of `s'` other than `chan` has the LED sequence it has in
`s`, byte for byte, hence slot for slot. -/
def keeps_other_channels (chan : Int) (s s' : ws2811_t) : Prop :=
  ∀ c : Int, c ≠ chan → ∀ p : List Nat, ws2811_leds s c = some (p, s) →
    ws2811_leds s' c = some (p, s')

/-! ## Sample controllers -/

/-- A sample controller with two channels: channel 0 has three active slots
in an object of four slots, channel 1 one active slot. -/
def sample : ws2811_t :=
  { channel :=
      [ { leds := [1, 2, 3, 4, 5, 6, 7, 8, 9, 10, 11, 12, 13, 14, 15, 16], count := 3 },
        { leds := [255, 254, 253, 252], count := 1 } ] }

/-- A controller with two unused channels: count = 0 and no LED bytes. -/
def sample_unused : ws2811_t :=
  { channel := [ { leds := [], count := 0 }, { leds := [], count := 0 } ] }

end Ws2811

namespace Ws2811

/-! ## Bytes and slots after a store -/

theorem store_bytes_eq_some {mem src m : List Nat} {off : Nat}
    (h : store_bytes mem off src = some m) :
    off + src.length ≤ mem.length ∧
      m = mem.take off ++ src ++ mem.drop (off + src.length) := by
  unfold store_bytes at h
  split at h
  · rename_i hb
    exact ⟨hb, (Option.some.inj h).symm⟩
  · cases h

theorem store_bytes_of_le {mem src : List Nat} {off : Nat}
    (hb : off + src.length ≤ mem.length) :
    store_bytes mem off src = some (mem.take off ++ src ++ mem.drop (off + src.length)) := by
  unfold store_bytes
  rw [if_pos hb]

theorem store_bytes_length {mem src m : List Nat} {off : Nat}
    (h : store_bytes mem off src = some m) : m.length = mem.length := by
  obtain ⟨hb, rfl⟩ := store_bytes_eq_some h
  simp only [List.length_append, List.length_take, List.length_drop]
  omega

theorem store_bytes_getElem? {mem src m : List Nat} {off : Nat}
    (h : store_bytes mem off src = some m) (k : Nat) :
    m[k]? = if off ≤ k ∧ k < off + src.length then src[k - off]? else mem[k]? := by
  obtain ⟨hb, rfl⟩ := store_bytes_eq_some h
  have hlt : (List.take off mem).length = off := by
    rw [List.length_take]; omega
  by_cases h1 : k < off
  · rw [if_neg (by omega), List.append_assoc, List.getElem?_append, hlt, if_pos h1,
      List.getElem?_take, if_pos h1]
  · by_cases h2 : k < off + src.length
    · rw [if_pos ⟨by omega, h2⟩, List.append_assoc, List.getElem?_append, hlt, if_neg h1,
        List.getElem?_append, if_pos (by omega)]
    · rw [if_neg (by omega), List.append_assoc, List.getElem?_append, hlt, if_neg h1,
        List.getElem?_append, if_neg (by omega), List.getElem?_drop]
      congr 1
      omega

theorem store_bytes_getD {mem src m : List Nat} {off : Nat}
    (h : store_bytes mem off src = some m) (k : Nat) :
    m.getD k 0 =
      if off ≤ k ∧ k < off + src.length then src.getD (k - off) 0 else mem.getD k 0 := by
  simp only [List.getD_eq_getElem?_getD, store_bytes_getElem? h]
  split <;> rfl

theorem slot_getD (p : List Nat) (o j : Nat) (hj : j < 4) :
    ((p.drop o).take 4).getD j 0 = p.getD (o + j) 0 := by
  simp only [List.getD_eq_getElem?_getD]
  rw [List.getElem?_take, if_pos hj, List.getElem?_drop]

theorem led_at_eq (e : ByteOrder) (p : List Nat) (i : Int) :
    led_at e p i =
      if 0 ≤ i ∧ 4 * i.toNat + 4 ≤ p.length then
        some (word32 e (p.getD (4 * i.toNat) 0) (p.getD (4 * i.toNat + 1) 0)
          (p.getD (4 * i.toNat + 2) 0) (p.getD (4 * i.toNat + 3) 0))
      else none := by
  unfold led_at load32 sizeof_led_t
  have h0 := slot_getD p (4 * i.toNat) 0 (by omega)
  have h1 := slot_getD p (4 * i.toNat) 1 (by omega)
  have h2 := slot_getD p (4 * i.toNat) 2 (by omega)
  have h3 := slot_getD p (4 * i.toNat) 3 (by omega)
  rw [Nat.add_zero] at h0
  rw [h0, h1, h2, h3]

theorem store32_length (e : ByteOrder) (v : Nat) : (store32 e v).length = 4 := by
  cases e <;> rfl

theorem word32_store32 (e : ByteOrder) (v : Nat) (hv : v < 2 ^ 32) :
    word32 e ((store32 e v).getD 0 0) ((store32 e v).getD 1 0)
      ((store32 e v).getD 2 0) ((store32 e v).getD 3 0) = v := by
  have hm : v % 2 ^ 32 = v := Nat.mod_eq_of_lt hv
  cases e <;> simp only [store32, word32, hm, List.getD_cons_zero, List.getD_cons_succ] <;> omega

theorem store32_zero (e : ByteOrder) : store32 e 0 = [0, 0, 0, 0] := by
  cases e <;> rfl

/-- A store that stays clear of slot j leaves the value of that slot. -/
theorem led_at_store_other {mem src m : List Nat} {off : Nat} (e : ByteOrder)
    (h : store_bytes mem off src = some m) (j : Int)
    (hj : 4 * j.toNat + 4 ≤ off ∨ off + src.length ≤ 4 * j.toNat) :
    led_at e m j = led_at e mem j := by
  rw [led_at_eq, led_at_eq, store_bytes_length h]
  have g : ∀ k, 4 * j.toNat ≤ k → k < 4 * j.toNat + 4 → m.getD k 0 = mem.getD k 0 := by
    intro k h1 h2
    rw [store_bytes_getD h, if_neg (by omega)]
  rw [g _ (by omega) (by omega), g _ (by omega) (by omega), g _ (by omega) (by omega),
    g _ (by omega) (by omega)]

/-- A store of the four bytes of v at slot i makes that slot read v. -/
theorem led_at_store32_same {mem m : List Nat} (e : ByteOrder) (i : Int) (v : Nat)
    (hi : 0 ≤ i) (hv : v < 2 ^ 32)
    (h : store_bytes mem (4 * i.toNat) (store32 e v) = some m) :
    led_at e m i = some v := by
  have hb := (store_bytes_eq_some h).1
  have hl := store32_length e v
  rw [led_at_eq, store_bytes_length h, if_pos ⟨hi, by omega⟩]
  rw [store_bytes_getD h, store_bytes_getD h, store_bytes_getD h, store_bytes_getD h]
  rw [if_pos (by omega), if_pos (by omega), if_pos (by omega), if_pos (by omega)]
  have e0 : 4 * i.toNat - 4 * i.toNat = 0 := by omega
  have e1 : 4 * i.toNat + 1 - 4 * i.toNat = 1 := by omega
  have e2 : 4 * i.toNat + 2 - 4 * i.toNat = 2 := by omega
  have e3 : 4 * i.toNat + 3 - 4 * i.toNat = 3 := by omega
  rw [e0, e1, e2, e3, word32_store32 e v hv]

/-! ## Channels of a controller -/

theorem channel_at_eq_some {s : ws2811_t} {chan : Int} {ch : ws2811_channel_t}
    (h : channel_at s chan = some ch) :
    0 ≤ chan ∧ s.channel[chan.toNat]? = some ch := by
  unfold channel_at at h
  split at h
  · rename_i hc
    exact ⟨hc, h⟩
  · cases h

theorem channel_at_put_leds_same {s : ws2811_t} {chan : Int} {ch : ws2811_channel_t}
    (h : channel_at s chan = some ch) (m : List Nat) :
    channel_at (put_leds s chan ch m) chan = some { ch with leds := m } := by
  obtain ⟨hc, hg⟩ := channel_at_eq_some h
  have hlt : chan.toNat < s.channel.length := by
    by_contra hcon
    rw [List.getElem?_eq_none (by omega)] at hg
    cases hg
  unfold channel_at put_leds
  rw [if_pos hc]
  simp only [List.getElem?_set, if_pos hlt, if_true]

theorem channel_at_put_leds_other (s : ws2811_t) {chan c : Int} (ch : ws2811_channel_t)
    (m : List Nat) (hc : 0 ≤ chan) (hne : c ≠ chan) :
    channel_at (put_leds s chan ch m) c = channel_at s c := by
  unfold channel_at put_leds
  by_cases h0 : 0 ≤ c
  · rw [if_pos h0, if_pos h0]
    have hn : chan.toNat ≠ c.toNat := by omega
    simp only [List.getElem?_set, if_neg hn]
  · rw [if_neg h0, if_neg h0]

theorem channel_at_of_ok {N : Nat} {s : ws2811_t} {chan : Int} (hok : ws2811_ok N s)
    (h0 : 0 ≤ chan) (h1 : chan < N) :
    ∃ ch, channel_at s chan = some ch ∧ channel_ok ch := by
  obtain ⟨hlen, hall⟩ := hok
  have hlt : chan.toNat < s.channel.length := by omega
  refine ⟨s.channel[chan.toNat], ?_, hall _ (List.getElem_mem hlt)⟩
  unfold channel_at
  rw [if_pos h0, List.getElem?_eq_getElem hlt]

theorem leds_of_channel {s : ws2811_t} {chan : Int} {ch : ws2811_channel_t}
    (h : channel_at s chan = some ch) : ws2811_leds s chan = some (ch.leds, s) := by
  unfold ws2811_leds
  rw [h]

theorem leds_count_of_channel {s : ws2811_t} {chan : Int} {ch : ws2811_channel_t}
    (h : channel_at s chan = some ch) : ws2811_leds_count s chan = some (ch.count, s) := by
  unfold ws2811_leds_count
  rw [h]

theorem leds_count_inv {s t : ws2811_t} {c n : Int}
    (h : ws2811_leds_count s c = some (n, t)) :
    ∃ ch, channel_at s c = some ch ∧ ch.count = n := by
  unfold ws2811_leds_count at h
  cases hc : channel_at s c with
  | none => rw [hc] at h; cases h
  | some ch =>
    rw [hc] at h
    exact ⟨ch, rfl, congrArg Prod.fst (Option.some.inj h)⟩

theorem leds_inv {s t : ws2811_t} {c : Int} {p : List Nat}
    (h : ws2811_leds s c = some (p, t)) :
    ∃ ch, channel_at s c = some ch ∧ ch.leds = p := by
  unfold ws2811_leds at h
  cases hc : channel_at s c with
  | none => rw [hc] at h; cases h
  | some ch =>
    rw [hc] at h
    exact ⟨ch, rfl, congrArg Prod.fst (Option.some.inj h)⟩

/-! ## What each mutator returns on a well-formed channel -/

theorem clear_channel_of_channel {s : ws2811_t} {chan : Int} {ch : ws2811_channel_t}
    (h : channel_at s chan = some ch) (hok : channel_ok ch) :
    store_bytes ch.leds 0 (List.replicate (4 * ch.count.toNat) 0) = some (zeroed ch).leds ∧
      ws2811_clear_channel s chan = some (put_leds s chan ch (zeroed ch).leds) := by
  obtain ⟨hc0, hcap⟩ := hok
  unfold sizeof_led_t at hcap
  have hb : 0 + (List.replicate (4 * ch.count.toNat) 0).length ≤ ch.leds.length := by
    rw [List.length_replicate]; omega
  have hst := store_bytes_of_le hb
  simp only [List.take_zero, List.nil_append, List.length_replicate, Nat.zero_add] at hst
  refine ⟨hst, ?_⟩
  unfold ws2811_clear_channel
  rw [h]
  simp only [size_arg, if_pos hc0, memset, sizeof_led_t, Nat.zero_mod, hst, zeroed]

theorem put_leds_zeroed (s : ws2811_t) (chan : Int) (ch : ws2811_channel_t) :
    put_leds s chan ch (zeroed ch).leds = { channel := s.channel.set chan.toNat (zeroed ch) } :=
  rfl

theorem zeroed_count (ch : ws2811_channel_t) : (zeroed ch).count = ch.count := rfl

theorem zeroed_leds_length {ch : ws2811_channel_t} (hok : channel_ok ch) :
    (zeroed ch).leds.length = ch.leds.length := by
  obtain ⟨_, hcap⟩ := hok
  simp only [zeroed, List.length_append, List.length_replicate, List.length_drop]
  omega

theorem zeroed_ok {ch : ws2811_channel_t} (hok : channel_ok ch) : channel_ok (zeroed ch) := by
  have hl := zeroed_leds_length hok
  obtain ⟨hc, hcap⟩ := hok
  exact ⟨hc, by rw [hl]; exact hcap⟩

/-- Every active slot of a cleared channel reads 0. -/
theorem zeroed_led_at (e : ByteOrder) {ch : ws2811_channel_t} (hok : channel_ok ch) (i : Int)
    (hi0 : 0 ≤ i) (hin : i < ch.count) : led_at e (zeroed ch).leds i = some 0 := by
  have hl := zeroed_leds_length hok
  obtain ⟨_, hcap⟩ := hok
  unfold sizeof_led_t at hcap
  have g : ∀ k, k < 4 * ch.count.toNat → (zeroed ch).leds.getD k 0 = 0 := by
    intro k hk
    simp only [zeroed, sizeof_led_t, List.getD_eq_getElem?_getD, List.getElem?_append,
      List.length_replicate, if_pos hk, List.getElem?_replicate, Option.getD_some]
  rw [led_at_eq, hl, if_pos ⟨hi0, by omega⟩]
  rw [g _ (by omega), g _ (by omega), g _ (by omega), g _ (by omega)]
  cases e <;> rfl

theorem set_led_of_channel (e : ByteOrder) {s : ws2811_t} {chan : Int} {ch : ws2811_channel_t}
    (h : channel_at s chan = some ch) (i : Int) (v : Nat) (hi : 0 ≤ i)
    (hcap : 4 * i.toNat + 4 ≤ ch.leds.length) :
    ∃ m, store_bytes ch.leds (4 * i.toNat) (store32 e v) = some m ∧
      ws2811_set_led e s chan i v = some (put_leds s chan ch m) := by
  have hb : 4 * i.toNat + (store32 e v).length ≤ ch.leds.length := by
    rw [store32_length]; exact hcap
  refine ⟨_, store_bytes_of_le hb, ?_⟩
  unfold ws2811_set_led
  rw [h]
  simp only [if_pos hi, sizeof_led_t, store_bytes_of_le hb]

/-! ## C1, C2, C6 -/

/-- C1: on a well-formed controller and a valid channel index chan,
ws2811_clear_channel returns, and afterwards every slot i with 0 <= i < count
of the sequence ws2811_leds returns for chan reads 0 (count is the value
ws2811_leds_count returns for chan, before and after the call). -/
theorem clear_channel_zeroes (e : ByteOrder) (N : Nat) (s : ws2811_t) (chan : Int)
    (hok : ws2811_ok N s) (h0 : 0 ≤ chan) (h1 : chan < N) :
    ∃ s' p n, ws2811_clear_channel s chan = some s' ∧
      ws2811_leds_count s chan = some (n, s) ∧
      ws2811_leds_count s' chan = some (n, s') ∧
      ws2811_leds s' chan = some (p, s') ∧
      ∀ i : Int, 0 ≤ i → i < n → led_at e p i = some 0 := by
  obtain ⟨ch, hch, hcok⟩ := channel_at_of_ok hok h0 h1
  have hclr := (clear_channel_of_channel hch hcok).2
  have hch' := channel_at_put_leds_same hch (zeroed ch).leds
  have hcnt' := leds_count_of_channel hch'
  exact ⟨_, (zeroed ch).leds, ch.count, hclr, leds_count_of_channel hch, hcnt',
    leds_of_channel hch', fun i hi0 hin => zeroed_led_at e hcok i hi0 hin⟩

/-- C1 at the sample controller, channel 0. -/
theorem clear_channel_zeroes_witness :
    ws2811_ok 2 sample ∧
    ∃ s' p n, ws2811_clear_channel sample 0 = some s' ∧
      ws2811_leds_count sample 0 = some (n, sample) ∧
      ws2811_leds_count s' 0 = some (n, s') ∧
      ws2811_leds s' 0 = some (p, s') ∧
      ∀ i : Int, 0 ≤ i → i < n → led_at ByteOrder.little p i = some 0 :=
  ⟨by decide, clear_channel_zeroes ByteOrder.little 2 sample 0 (by decide) (by decide)
    (by decide)⟩

/-- C2: on a well-formed controller, for a valid channel chan, a slot index
i with 0 <= i < ws2811_leds_count(chan) and a 32-bit value v, ws2811_set_led
returns, afterwards slot i of the sequence ws2811_leds returns for chan reads
v, and every other slot j of that sequence reads what it read before. -/
theorem set_led_then_leds (e : ByteOrder) (N : Nat) (s : ws2811_t) (chan i : Int) (v : Nat)
    (n : Int) (hok : ws2811_ok N s) (h0 : 0 ≤ chan) (h1 : chan < N)
    (hn : ws2811_leds_count s chan = some (n, s)) (hi0 : 0 ≤ i) (hi : i < n)
    (hv : v < 2 ^ 32) :
    ∃ s' p p0, ws2811_set_led e s chan i v = some s' ∧
      ws2811_leds s chan = some (p0, s) ∧
      ws2811_leds s' chan = some (p, s') ∧
      led_at e p i = some v ∧
      ∀ j : Int, j ≠ i → led_at e p j = led_at e p0 j := by
  obtain ⟨ch, hch, hcok⟩ := channel_at_of_ok hok h0 h1
  rw [leds_count_of_channel hch] at hn
  have hnc : ch.count = n := congrArg Prod.fst (Option.some.inj hn)
  obtain ⟨_, hcap⟩ := hcok
  unfold sizeof_led_t at hcap
  obtain ⟨m, hm, hset⟩ := set_led_of_channel e hch i v hi0 (by omega)
  have hch' := channel_at_put_leds_same hch m
  refine ⟨_, m, ch.leds, hset, leds_of_channel hch, leds_of_channel hch',
    led_at_store32_same e i v hi0 hv hm, ?_⟩
  intro j hj
  by_cases hj0 : 0 ≤ j
  · apply led_at_store_other e hm j
    rw [store32_length]
    omega
  · rw [led_at_eq, led_at_eq, if_neg (fun h => hj0 h.1), if_neg (fun h => hj0 h.1)]

/-- C2 at the sample controller: slot 1 of channel 0 set to 0xAABBCCDD. -/
theorem set_led_then_leds_witness :
    ws2811_ok 2 sample ∧
    ∃ s' p p0, ws2811_set_led ByteOrder.big sample 0 1 0xAABBCCDD = some s' ∧
      ws2811_leds sample 0 = some (p0, sample) ∧
      ws2811_leds s' 0 = some (p, s') ∧
      led_at ByteOrder.big p 1 = some 0xAABBCCDD ∧
      ∀ j : Int, j ≠ 1 → led_at ByteOrder.big p j = led_at ByteOrder.big p0 j :=
  ⟨by decide, set_led_then_leds ByteOrder.big 2 sample 0 1 0xAABBCCDD 3 (by decide)
    (by decide) (by decide) (by rfl) (by decide) (by decide) (by decide)⟩

/-- C6: on a well-formed controller and a valid channel index chan,
ws2811_clear_channel returns and ws2811_leds_count for chan returns the same
count after the call as before it. -/
theorem clear_channel_keeps_count (N : Nat) (s : ws2811_t) (chan : Int)
    (hok : ws2811_ok N s) (h0 : 0 ≤ chan) (h1 : chan < N) :
    ∃ s' n, ws2811_clear_channel s chan = some s' ∧
      ws2811_leds_count s chan = some (n, s) ∧
      ws2811_leds_count s' chan = some (n, s') := by
  obtain ⟨ch, hch, hcok⟩ := channel_at_of_ok hok h0 h1
  have hclr := (clear_channel_of_channel hch hcok).2
  have hcnt' := leds_count_of_channel (channel_at_put_leds_same hch (zeroed ch).leds)
  exact ⟨_, ch.count, hclr, leds_count_of_channel hch, hcnt'⟩

/-- C6 at the sample controller, channel 1. -/
theorem clear_channel_keeps_count_witness :
    ws2811_ok 2 sample ∧
    ∃ s' n, ws2811_clear_channel sample 1 = some s' ∧
      ws2811_leds_count sample 1 = some (n, sample) ∧
      ws2811_leds_count s' 1 = some (n, s') :=
  ⟨by decide, clear_channel_keeps_count 2 sample 1 (by decide) (by decide) (by decide)⟩

/-! ## C3, C4: ws2811_set_bitmap -/

theorem set_bitmap_of_channel {s : ws2811_t} {chan : Int} {ch : ws2811_channel_t}
    (h : channel_at s chan = some ch) (a : List Nat) (len : Int) (hl0 : 0 ≤ len)
    (hla : len.toNat ≤ a.length) (hcap : len.toNat ≤ ch.leds.length) :
    ∃ m, store_bytes ch.leds 0 (a.take len.toNat) = some m ∧
      ws2811_set_bitmap s chan a len = some (put_leds s chan ch m) := by
  have hb : 0 + (a.take len.toNat).length ≤ ch.leds.length := by
    rw [List.length_take]; omega
  refine ⟨_, store_bytes_of_le hb, ?_⟩
  unfold ws2811_set_bitmap
  rw [h]
  simp only [size_arg, if_pos hl0, memcpy, if_pos hla, store_bytes_of_le hb]

theorem led_bytes_length (e : ByteOrder) (vs : List Nat) :
    (led_bytes e vs).length = 4 * vs.length := by
  induction vs with
  | nil => rfl
  | cons v vs ih =>
    simp only [led_bytes, List.length_append, store32_length, ih, List.length_cons]
    omega

theorem led_bytes_getD (e : ByteOrder) (vs : List Nat) (k j : Nat) (hk : k < vs.length)
    (hj : j < 4) :
    (led_bytes e vs).getD (4 * k + j) 0 = (store32 e vs[k]).getD j 0 := by
  induction vs generalizing k with
  | nil => simp at hk
  | cons v vs ih =>
    simp only [led_bytes, List.getD_eq_getElem?_getD, List.getElem?_append, store32_length]
    cases k with
    | zero =>
      rw [if_pos (by omega)]
      simp only [Nat.mul_zero, Nat.zero_add, List.getElem_cons_zero]
    | succ k =>
      rw [if_neg (by omega)]
      have hk' : k < vs.length := by simpa using hk
      have hidx : 4 * (k + 1) + j - 4 = 4 * k + j := by omega
      have := ih k hk'
      simp only [List.getD_eq_getElem?_getD] at this
      rw [hidx, this, List.getElem_cons_succ]

/-- C3: on a well-formed controller whose channel chan has count = n, for a
sequence vs of n 32-bit values, ws2811_set_bitmap with the bitmap of exactly
4 * n bytes that represents vs (each value as the four bytes of a slot in
memory order) returns, and afterwards slot k of the sequence ws2811_leds
returns for chan reads vs[k], for every k < n. -/
theorem set_bitmap_then_leds (e : ByteOrder) (N : Nat) (s : ws2811_t) (chan : Int)
    (vs : List Nat) (hok : ws2811_ok N s) (h0 : 0 ≤ chan) (h1 : chan < N)
    (hcount : ws2811_leds_count s chan = some ((vs.length : Int), s))
    (hvs : ∀ v ∈ vs, v < 2 ^ 32) :
    (led_bytes e vs).length = 4 * vs.length ∧
    ∃ s' p, ws2811_set_bitmap s chan (led_bytes e vs) (4 * (vs.length : Int)) = some s' ∧
      ws2811_leds s' chan = some (p, s') ∧
      ∀ (k : Nat) (hk : k < vs.length), led_at e p (k : Int) = some vs[k] := by
  obtain ⟨ch, hch, hcok⟩ := channel_at_of_ok hok h0 h1
  rw [leds_count_of_channel hch] at hcount
  have hnc : ch.count = (vs.length : Int) := congrArg Prod.fst (Option.some.inj hcount)
  obtain ⟨_, hcap⟩ := hcok
  unfold sizeof_led_t at hcap
  have hlen := led_bytes_length e vs
  have htn : (4 * (vs.length : Int)).toNat = 4 * vs.length := by omega
  obtain ⟨m, hm, hset⟩ := set_bitmap_of_channel hch (led_bytes e vs) (4 * (vs.length : Int))
    (by omega) (by omega) (by omega)
  rw [htn, List.take_of_length_le (by omega)] at hm
  have hch' := channel_at_put_leds_same hch m
  refine ⟨hlen, _, m, hset, leds_of_channel hch', ?_⟩
  intro k hk
  have hkn : (k : Int).toNat = k := by omega
  have g : ∀ j, j < 4 → m.getD (4 * k + j) 0 = (store32 e vs[k]).getD j 0 := by
    intro j hj
    rw [store_bytes_getD hm, if_pos (by omega), Nat.sub_zero, led_bytes_getD e vs k j hk hj]
  have g0 := g 0 (by omega)
  rw [Nat.add_zero] at g0
  rw [led_at_eq, store_bytes_length hm, if_pos ⟨by omega, by omega⟩, hkn, g0,
    g 1 (by omega), g 2 (by omega), g 3 (by omega),
    word32_store32 e _ (hvs _ (List.getElem_mem hk))]

/-- C3 at the sample controller, whose channel 0 has count = 3, with the
values 0xAABBCCDD, 0x11223344, 0x55667788. -/
theorem set_bitmap_then_leds_witness :
    ws2811_ok 2 sample ∧
    (led_bytes ByteOrder.little [0xAABBCCDD, 0x11223344, 0x55667788]).length = 4 * 3 ∧
    ∃ s' p, ws2811_set_bitmap sample 0
        (led_bytes ByteOrder.little [0xAABBCCDD, 0x11223344, 0x55667788]) (4 * 3) = some s' ∧
      ws2811_leds s' 0 = some (p, s') ∧
      ∀ (k : Nat) (hk : k < 3), led_at ByteOrder.little p (k : Int) =
        some ([0xAABBCCDD, 0x11223344, 0x55667788].get ⟨k, hk⟩) :=
  ⟨by decide, set_bitmap_then_leds ByteOrder.little 2 sample 0
    [0xAABBCCDD, 0x11223344, 0x55667788] (by decide) (by decide) (by decide) (by rfl)
    (by decide)⟩

/-- C4 as stated fails: at the sample controller (channel 0: count = 3) a
bitmap of byteLength 5 <= 3 * 4 changes slot 5 / 4 = 1, in either byte order:
its first byte in memory is replaced, the other three stay. -/
theorem set_bitmap_tail_counterexample :
    ws2811_ok 2 sample ∧
    ws2811_leds_count sample 0 = some (3, sample) ∧ (0 : Int) ≤ 5 ∧ (5 : Int) ≤ 3 * 4 ∧
    (5 : Int) / 4 = 1 ∧
    ∃ s' p p0, ws2811_set_bitmap sample 0 [1, 1, 1, 1, 1] 5 = some s' ∧
      ws2811_leds sample 0 = some (p0, sample) ∧
      ws2811_leds s' 0 = some (p, s') ∧
      led_at ByteOrder.little p0 1 = some 0x08070605 ∧
      led_at ByteOrder.little p 1 = some 0x08070601 ∧
      led_at ByteOrder.big p0 1 = some 0x05060708 ∧
      led_at ByteOrder.big p 1 = some 0x01060708 ∧
      led_at ByteOrder.little p 1 ≠ led_at ByteOrder.little p0 1 ∧
      led_at ByteOrder.big p 1 ≠ led_at ByteOrder.big p0 1 := by
  refine ⟨by decide, rfl, by decide, by decide, by decide, _, _, _, rfl, rfl, rfl, ?_⟩
  decide

/-- C4, amended: on a well-formed controller, for a valid channel chan with
count = n, a byteLength len with 0 <= len <= 4 * n and a bitmap of at least len
bytes, ws2811_set_bitmap returns and every slot whose index is at or beyond
len / 4 rounded up reads afterwards what it read before. -/
theorem set_bitmap_keeps_tail (e : ByteOrder) (N : Nat) (s : ws2811_t) (chan : Int)
    (a : List Nat) (len n : Int) (hok : ws2811_ok N s) (h0 : 0 ≤ chan) (h1 : chan < N)
    (hcount : ws2811_leds_count s chan = some (n, s))
    (hl0 : 0 ≤ len) (hl1 : len ≤ 4 * n) (hla : len ≤ a.length) :
    ∃ s' p p0, ws2811_set_bitmap s chan a len = some s' ∧
      ws2811_leds s chan = some (p0, s) ∧
      ws2811_leds s' chan = some (p, s') ∧
      ∀ j : Int, (len + 3) / 4 ≤ j → led_at e p j = led_at e p0 j := by
  obtain ⟨ch, hch, hcok⟩ := channel_at_of_ok hok h0 h1
  rw [leds_count_of_channel hch] at hcount
  have hnc : ch.count = n := congrArg Prod.fst (Option.some.inj hcount)
  obtain ⟨_, hcap⟩ := hcok
  unfold sizeof_led_t at hcap
  obtain ⟨m, hm, hset⟩ := set_bitmap_of_channel hch a len hl0 (by omega) (by omega)
  have hch' := channel_at_put_leds_same hch m
  refine ⟨_, m, ch.leds, hset, leds_of_channel hch, leds_of_channel hch', ?_⟩
  intro j hj
  apply led_at_store_other e hm j
  rw [List.length_take]
  omega

/-- C4, amended, at the sample controller: byteLength 5, slots 2 and up. -/
theorem set_bitmap_keeps_tail_witness :
    ws2811_ok 2 sample ∧
    ∃ s' p p0, ws2811_set_bitmap sample 0 [1, 1, 1, 1, 1] 5 = some s' ∧
      ws2811_leds sample 0 = some (p0, sample) ∧
      ws2811_leds s' 0 = some (p, s') ∧
      ∀ j : Int, ((5 : Int) + 3) / 4 ≤ j →
        led_at ByteOrder.little p j = led_at ByteOrder.little p0 j :=
  ⟨by decide, set_bitmap_keeps_tail ByteOrder.little 2 sample 0 [1, 1, 1, 1, 1] 5 3
    (by decide) (by decide) (by decide) (by rfl) (by decide) (by decide) (by decide)⟩

/-! ## Clearing several channels -/

theorem zeroed_zeroed (ch : ws2811_channel_t) : zeroed (zeroed ch) = zeroed ch := by
  simp only [zeroed]
  congr 2
  exact List.drop_left' (List.length_replicate _ _)

theorem clear_channel_ok {N : Nat} {s : ws2811_t} {chan : Int} {ch : ws2811_channel_t}
    (hok : ws2811_ok N s) (hcok : channel_ok ch) :
    ws2811_ok N { channel := s.channel.set chan.toNat (zeroed ch) } := by
  obtain ⟨hlen, hall⟩ := hok
  refine ⟨by simp only [List.length_set]; exact hlen, ?_⟩
  intro x hx
  rcases List.mem_or_eq_of_mem_set hx with hx | hx
  · exact hall x hx
  · rw [hx]; exact zeroed_ok hcok

/-- Clearing the channels of a list of valid indices, whatever its order and
repetitions: the call sequence completes, and a channel is cleared if its
index is in the list and untouched otherwise. -/
theorem clear_channels_spec (N : Nat) :
    ∀ (l : List Int) (s : ws2811_t), ws2811_ok N s → (∀ c ∈ l, 0 ≤ c ∧ c < N) →
      ∃ s', clear_channels s l = some s' ∧ ws2811_ok N s' ∧
        ∀ i : Nat, s'.channel[i]? =
          if (i : Int) ∈ l then (s.channel[i]?).map zeroed else s.channel[i]? := by
  intro l
  induction l with
  | nil =>
    intro s hok _
    exact ⟨s, rfl, hok, fun i => by simp⟩
  | cons c t ih =>
    intro s hok hl
    obtain ⟨hc0, hc1⟩ := hl c (List.mem_cons_self c t)
    obtain ⟨ch, hch, hcok⟩ := channel_at_of_ok hok hc0 hc1
    have hclr := (clear_channel_of_channel hch hcok).2
    rw [put_leds_zeroed] at hclr
    have hok1 := @clear_channel_ok N s c ch hok hcok
    obtain ⟨s', hs', hok', hpt⟩ := ih _ hok1 (fun x hx => hl x (List.mem_cons_of_mem c hx))
    refine ⟨s', ?_, hok', ?_⟩
    · simp only [clear_channels, hclr, hs']
    · intro i
      have hget := (channel_at_eq_some hch).2
      have hlt : c.toNat < s.channel.length := by
        have := hok.1
        omega
      rw [hpt i]
      simp only [List.getElem?_set, List.mem_cons]
      by_cases hic : c.toNat = i
      · have hci : (i : Int) = c := by omega
        subst hic
        simp only [if_true, if_pos hlt, hci, true_or, hget, Option.map_some', zeroed_zeroed,
          ite_self]
      · have hci : ¬ (i : Int) = c := by omega
        simp only [if_neg hic, hci, false_or]

/-- A list of channel indices that holds exactly the valid ones clears the
controller channel by channel. -/
theorem clear_channels_all {N : Nat} {s : ws2811_t} (hok : ws2811_ok N s) (l : List Int)
    (hl : ∀ c : Int, c ∈ l ↔ 0 ≤ c ∧ c < N) :
    clear_channels s l = some { channel := s.channel.map zeroed } := by
  obtain ⟨s', hs', _, hpt⟩ := clear_channels_spec N l s hok (fun c hc => (hl c).1 hc)
  rw [hs']
  congr 1
  cases s' with
  | mk chs =>
    congr 1
    apply List.ext_getElem?
    intro i
    have := hpt i
    simp only at this
    rw [this, List.getElem?_map]
    by_cases hi : i < N
    · rw [if_pos ((hl i).2 ⟨by omega, by omega⟩)]
    · have hmem : ¬ (i : Int) ∈ l := fun h => hi (by have := (hl i).1 h; omega)
      rw [if_neg hmem, List.getElem?_eq_none (by rw [hok.1]; omega)]
      rfl

theorem mem_range_int (N : Nat) (c : Int) :
    c ∈ (List.range N).map Int.ofNat ↔ 0 ≤ c ∧ c < N := by
  simp only [List.mem_map, List.mem_range, Int.ofNat_eq_coe]
  constructor
  · rintro ⟨a, ha, rfl⟩
    omega
  · rintro ⟨h0, h1⟩
    exact ⟨c.toNat, by omega, by omega⟩

/-- The calls ws2811_clear_channel(ws2811, 0), ..., ws2811_clear_channel(ws2811,
N - 1) in index order on a well-formed controller of N channels: they
complete, and afterwards every slot i with 0 <= i < count of every channel
reads 0, count being the count of the channel before and after the calls. -/
theorem clear_channels_in_order_zeroes (e : ByteOrder) (N : Nat) (s : ws2811_t)
    (hok : ws2811_ok N s) :
    ∃ s', clear_channels s ((List.range N).map Int.ofNat) = some s' ∧
      ∀ chan : Int, 0 ≤ chan → chan < N →
        ∃ p n, ws2811_leds_count s chan = some (n, s) ∧
          ws2811_leds_count s' chan = some (n, s') ∧
          ws2811_leds s' chan = some (p, s') ∧
          ∀ i : Int, 0 ≤ i → i < n → led_at e p i = some 0 := by
  refine ⟨_, clear_channels_all hok _ (mem_range_int N), ?_⟩
  intro chan h0 h1
  obtain ⟨ch, hch, hcok⟩ := channel_at_of_ok hok h0 h1
  have hch' : channel_at { channel := s.channel.map zeroed } chan = some (zeroed ch) := by
    unfold channel_at
    rw [if_pos h0, List.getElem?_map, (channel_at_eq_some hch).2]
    rfl
  have hcnt' := leds_count_of_channel hch'
  exact ⟨(zeroed ch).leds, ch.count, leds_count_of_channel hch, hcnt', leds_of_channel hch',
    fun i hi0 hin => zeroed_led_at e hcok i hi0 hin⟩

/-! ## C10: the order of the calls of ws2811_clear_channel -/

/-- C10, the part about ws2811_clear_channel (ws2811_clear_all itself has no
well-formed source text): on a well-formed controller, for two distinct valid
channel indices a and b, ws2811_clear_channel(a) then ws2811_clear_channel(b)
completes in the same controller state as ws2811_clear_channel(b) then
ws2811_clear_channel(a); and applying ws2811_clear_channel to the indices
0 .. RPI_PWM_CHANNELS - 1 in any order (any permutation of them) completes in
the state that applying it in index order completes in. -/
theorem clear_channel_order_irrelevant (N : Nat) (s : ws2811_t) (hok : ws2811_ok N s) :
    (∀ a b : Int, 0 ≤ a → a < N → 0 ≤ b → b < N → a ≠ b →
      ∃ s', (ws2811_clear_channel s a).bind (fun t => ws2811_clear_channel t b) = some s' ∧
        (ws2811_clear_channel s b).bind (fun t => ws2811_clear_channel t a) = some s') ∧
    ∃ s', clear_channels s ((List.range N).map Int.ofNat) = some s' ∧
      ∀ l : List Int, l.Perm ((List.range N).map Int.ofNat) → clear_channels s l = some s' := by
  constructor
  · intro a b ha0 ha1 hb0 hb1 _
    have hab : ∀ c ∈ [a, b], 0 ≤ c ∧ c < N := by
      intro c hc
      simp only [List.mem_cons, List.mem_singleton, List.not_mem_nil, or_false] at hc
      rcases hc with rfl | rfl
      · exact ⟨ha0, ha1⟩
      · exact ⟨hb0, hb1⟩
    have hba : ∀ c ∈ [b, a], 0 ≤ c ∧ c < N := by
      intro c hc
      exact hab c (by
        simp only [List.mem_cons, List.mem_singleton, List.not_mem_nil, or_false] at hc ⊢
        exact hc.symm)
    obtain ⟨s1, h1, _, p1⟩ := clear_channels_spec N [a, b] s hok hab
    obtain ⟨s2, h2, _, p2⟩ := clear_channels_spec N [b, a] s hok hba
    have hs : s2 = s1 := by
      cases s1 with
      | mk c1 =>
        cases s2 with
        | mk c2 =>
          congr 1
          apply List.ext_getElem?
          intro i
          have q1 := p1 i
          have q2 := p2 i
          simp only [List.mem_cons, List.mem_singleton, List.not_mem_nil, or_false] at q1 q2
          rw [q1, q2]
          simp only [or_comm]
    have e1 : clear_channels s [a, b] =
        (ws2811_clear_channel s a).bind (fun t => ws2811_clear_channel t b) := by
      simp only [clear_channels]
      cases ws2811_clear_channel s a with
      | none => rfl
      | some t =>
        simp only [Option.some_bind]
        cases ws2811_clear_channel t b <;> rfl
    have e2 : clear_channels s [b, a] =
        (ws2811_clear_channel s b).bind (fun t => ws2811_clear_channel t a) := by
      simp only [clear_channels]
      cases ws2811_clear_channel s b with
      | none => rfl
      | some t =>
        simp only [Option.some_bind]
        cases ws2811_clear_channel t a <;> rfl
    refine ⟨s1, ?_, ?_⟩
    · rw [← e1]; exact h1
    · rw [← e2, h2, hs]
  · refine ⟨_, clear_channels_all hok _ (mem_range_int N), ?_⟩
    intro l hl
    exact clear_channels_all hok l (fun c => by rw [hl.mem_iff]; exact mem_range_int N c)

/-- C10, the part about ws2811_clear_channel, at the sample controller. -/
theorem clear_channel_order_irrelevant_witness :
    ws2811_ok 2 sample ∧
    (∀ a b : Int, 0 ≤ a → a < (2 : Nat) → 0 ≤ b → b < (2 : Nat) → a ≠ b →
      ∃ s', (ws2811_clear_channel sample a).bind (fun t => ws2811_clear_channel t b) = some s' ∧
        (ws2811_clear_channel sample b).bind (fun t => ws2811_clear_channel t a) = some s') ∧
    ∃ s', clear_channels sample ((List.range 2).map Int.ofNat) = some s' ∧
      ∀ l : List Int, l.Perm ((List.range 2).map Int.ofNat) →
        clear_channels sample l = some s' :=
  ⟨by decide, clear_channel_order_irrelevant 2 sample (by decide)⟩

/-! ## C7: clearing slot by slot -/

theorem put_leds_self {s : ws2811_t} {chan : Int} {ch : ws2811_channel_t}
    (h : channel_at s chan = some ch) : put_leds s chan ch ch.leds = s := by
  have hget := (channel_at_eq_some h).2
  cases s with
  | mk chs =>
    unfold put_leds
    congr 1
    apply List.ext_getElem?
    intro i
    simp only [List.getElem?_set]
    simp only at hget
    by_cases hi : chan.toNat = i
    · subst hi
      rw [if_pos rfl, hget]
      split
      · rfl
      · rename_i hlt
        rw [List.getElem?_eq_none (by omega)] at hget
        cases hget
    · rw [if_neg hi]

theorem put_leds_put_leds (s : ws2811_t) (chan : Int) (ch ch2 : ws2811_channel_t)
    (m m2 : List Nat) (hcount : ch2.count = ch.count) :
    put_leds (put_leds s chan ch m) chan ch2 m2 = put_leds s chan ch m2 := by
  unfold put_leds
  simp only [List.set_set, hcount]

theorem zero_bytes_getElem? (j : Nat) (hj : j < 4) : [0, 0, 0, 0][j]? = some 0 := by
  interval_cases j <;> rfl

/-- The bytes of the channel after k calls ws2811_set_led(ws2811, chan, i, 0),
..., ws2811_set_led(ws2811, chan, i + k - 1, 0). -/
theorem set_led_zero_loop_spec (e : ByteOrder) (chan : Int) :
    ∀ (k i : Nat) (s : ws2811_t) (ch : ws2811_channel_t), channel_at s chan = some ch →
      4 * (i + k) ≤ ch.leds.length →
      ∃ m, set_led_zero_loop e s chan i k = some (put_leds s chan ch m) ∧
        m.length = ch.leds.length ∧
        ∀ b : Nat, m[b]? = if 4 * i ≤ b ∧ b < 4 * (i + k) then some 0 else ch.leds[b]? := by
  intro k
  induction k with
  | zero =>
    intro i s ch hch _
    refine ⟨ch.leds, ?_, rfl, ?_⟩
    · rw [put_leds_self hch]; rfl
    · intro b
      rw [if_neg (by omega)]
  | succ k ih =>
    intro i s ch hch hcap
    have hti : (i : Int).toNat = i := Int.toNat_ofNat i
    obtain ⟨m1, hm1, hset⟩ := set_led_of_channel e hch (i : Int) 0 (by omega)
      (by rw [hti]; omega)
    rw [hti, store32_zero] at hm1
    have hlen1 := store_bytes_length hm1
    have hch1 := channel_at_put_leds_same hch m1
    obtain ⟨m, hloop, hlen, hpt⟩ := ih (i + 1) _ _ hch1 (by simp only; omega)
    rw [put_leds_put_leds s chan ch ⟨m1, ch.count⟩ m1 m rfl] at hloop
    refine ⟨m, ?_, by rw [hlen]; exact hlen1, ?_⟩
    · simp only [set_led_zero_loop, hset, hloop]
    · intro b
      rw [hpt b]
      simp only
      rw [store_bytes_getElem? hm1 b]
      simp only [List.length_cons, List.length_nil]
      by_cases h1 : 4 * i ≤ b ∧ b < 4 * i + 4
      · rw [if_neg (by omega), if_pos (by omega), if_pos (by omega),
          zero_bytes_getElem? _ (by omega)]
      · by_cases h2 : 4 * (i + 1) ≤ b ∧ b < 4 * (i + 1 + k)
        · rw [if_pos h2, if_pos (by omega)]
        · rw [if_neg h2, if_neg (by omega), if_neg (by omega)]

theorem zeroed_leds_getElem? (ch : ws2811_channel_t) (b : Nat) :
    (zeroed ch).leds[b]? = if b < 4 * ch.count.toNat then some 0 else ch.leds[b]? := by
  simp only [zeroed, sizeof_led_t, List.getElem?_append, List.length_replicate,
    List.getElem?_replicate]
  by_cases hb : b < 4 * ch.count.toNat
  · simp only [if_pos hb]
  · simp only [if_neg hb, List.getElem?_drop]
    congr 1
    omega

/-- C7: on a well-formed controller and a valid channel index chan,
ws2811_clear_channel (one memset of 4 * count bytes) and the calls
ws2811_set_led(ws2811, chan, i, 0) for i = 0, ..., count - 1 in turn both
complete, in the same controller state. -/
theorem clear_channel_refines (e : ByteOrder) (N : Nat) (s : ws2811_t) (chan : Int)
    (hok : ws2811_ok N s) (h0 : 0 ≤ chan) (h1 : chan < N) :
    ∃ s', ws2811_clear_channel s chan = some s' ∧
      clear_channel_by_set_led e s chan = some s' := by
  obtain ⟨ch, hch, hcok⟩ := channel_at_of_ok hok h0 h1
  refine ⟨_, (clear_channel_of_channel hch hcok).2, ?_⟩
  have hcap := hcok.2
  unfold sizeof_led_t at hcap
  obtain ⟨m, hloop, _, hpt⟩ :=
    set_led_zero_loop_spec e chan ch.count.toNat 0 s ch hch (by omega)
  have hm : m = (zeroed ch).leds := by
    apply List.ext_getElem?
    intro b
    rw [hpt b, zeroed_leds_getElem?]
    by_cases hb : b < 4 * ch.count.toNat
    · rw [if_pos (by omega), if_pos hb]
    · rw [if_neg (by omega), if_neg hb]
  unfold clear_channel_by_set_led
  rw [leds_count_of_channel hch]
  simp only [hloop, hm]

/-- C7 at the sample controller, channel 0. -/
theorem clear_channel_refines_witness :
    ws2811_ok 2 sample ∧
    ∃ s', ws2811_clear_channel sample 0 = some s' ∧
      clear_channel_by_set_led ByteOrder.big sample 0 = some s' :=
  ⟨by decide, clear_channel_refines ByteOrder.big 2 sample 0 (by decide) (by decide)
    (by decide)⟩

/-! ## C8: the accessors -/

theorem set_led_inv {e : ByteOrder} {s s' : ws2811_t} {chan i : Int} {v : Nat}
    (h : ws2811_set_led e s chan i v = some s') :
    ∃ ch m, channel_at s chan = some ch ∧ 0 ≤ i ∧
      store_bytes ch.leds (4 * i.toNat) (store32 e v) = some m ∧
      s' = put_leds s chan ch m := by
  unfold ws2811_set_led at h
  cases hc : channel_at s chan with
  | none => rw [hc] at h; cases h
  | some ch =>
    rw [hc] at h
    simp only [sizeof_led_t] at h
    by_cases hi : 0 ≤ i
    · rw [if_pos hi] at h
      cases hm : store_bytes ch.leds (4 * i.toNat) (store32 e v) with
      | none => rw [hm] at h; cases h
      | some m =>
        rw [hm] at h
        exact ⟨ch, m, rfl, hi, hm, (Option.some.inj h).symm⟩
    · rw [if_neg hi] at h
      cases h

theorem load_leds_of_channel {s : ws2811_t} {chan : Int} {ch : ws2811_channel_t}
    (h : channel_at s chan = some ch) :
    load_leds s (led_ptr.channel_leds chan.toNat) = some ch.leds := by
  simp only [load_leds, (channel_at_eq_some h).2, Option.map_some']

/-- The embedding of ws2811_leds by value is the embedding by pointer followed
by the load of the object the pointer designates. -/
theorem leds_eq_load_of_ptr (s : ws2811_t) (chan : Int) :
    ws2811_leds s chan =
      (ws2811_leds_ptr s chan).bind (fun r => (load_leds r.2 r.1).map (fun o => (o, r.2))) := by
  unfold ws2811_leds ws2811_leds_ptr
  cases hc : channel_at s chan with
  | none => rfl
  | some ch => simp only [Option.some_bind, load_leds_of_channel hc, Option.map_some']

/-- C8: for a valid channel index chan, ws2811_leds_count returns the count
field of channel chan, and ws2811_leds returns the pointer kept in the leds
field of that channel, which designates the channel's own LED sequence, not
a copy: a value stored by a later ws2811_set_led is read through the pointer
returned before the store, and in every controller state the object behind
that pointer is the sequence ws2811_leds returns there.  The controller state
after either call is the state before it. -/
theorem accessors_return_fields (N : Nat) (s : ws2811_t) (chan : Int)
    (hlen : s.channel.length = N) (h0 : 0 ≤ chan) (h1 : chan < N) :
    ∃ ch p, s.channel[chan.toNat]? = some ch ∧
      ws2811_leds_count s chan = some (ch.count, s) ∧
      ws2811_leds_ptr s chan = some (p, s) ∧
      p = led_ptr.channel_leds chan.toNat ∧
      load_leds s p = some ch.leds ∧
      ws2811_leds s chan = some (ch.leds, s) ∧
      (∀ (e : ByteOrder) (i : Int) (v : Nat) (s' : ws2811_t), v < 2 ^ 32 →
        ws2811_set_led e s chan i v = some s' →
        ∃ o, load_leds s' p = some o ∧ led_at e o i = some v) ∧
      (∀ (s' : ws2811_t) (o : List Nat), ws2811_leds s' chan = some (o, s') →
        load_leds s' p = some o) := by
  have hlt : chan.toNat < s.channel.length := by omega
  have hget : s.channel[chan.toNat]? = some s.channel[chan.toNat] :=
    List.getElem?_eq_getElem hlt
  have hch : channel_at s chan = some s.channel[chan.toNat] := by
    unfold channel_at
    rw [if_pos h0, hget]
  have hptr : ws2811_leds_ptr s chan = some (led_ptr.channel_leds chan.toNat, s) := by
    unfold ws2811_leds_ptr
    rw [hch]
  refine ⟨_, _, hget, leds_count_of_channel hch, hptr, rfl, load_leds_of_channel hch,
    leds_of_channel hch, ?_, ?_⟩
  · intro e i v s' hv hset
    obtain ⟨ch, m, hc, hi, hm, rfl⟩ := set_led_inv hset
    have hch' := channel_at_put_leds_same hc m
    exact ⟨m, load_leds_of_channel hch', led_at_store32_same e i v hi hv hm⟩
  · intro s' o ho
    obtain ⟨x, hx, hxo⟩ := leds_inv ho
    rw [load_leds_of_channel hx, hxo]

/-- C8 at the sample controller, channel 1, with the store of 0x11223344 to
slot 0 read through the pointer returned before the store. -/
theorem accessors_return_fields_witness :
    sample.channel.length = 2 ∧
    (∃ ch p, sample.channel[(1 : Int).toNat]? = some ch ∧
      ws2811_leds_count sample 1 = some (ch.count, sample) ∧
      ws2811_leds_ptr sample 1 = some (p, sample) ∧
      p = led_ptr.channel_leds (1 : Int).toNat ∧
      load_leds sample p = some ch.leds ∧
      ws2811_leds sample 1 = some (ch.leds, sample) ∧
      (∀ (e : ByteOrder) (i : Int) (v : Nat) (s' : ws2811_t), v < 2 ^ 32 →
        ws2811_set_led e sample 1 i v = some s' →
        ∃ o, load_leds s' p = some o ∧ led_at e o i = some v) ∧
      (∀ (s' : ws2811_t) (o : List Nat), ws2811_leds s' 1 = some (o, s') →
        load_leds s' p = some o)) ∧
    ws2811_set_led ByteOrder.little sample 1 0 0x11223344 =
      some { channel :=
        [ { leds := [1, 2, 3, 4, 5, 6, 7, 8, 9, 10, 11, 12, 13, 14, 15, 16], count := 3 },
          { leds := [0x44, 0x33, 0x22, 0x11], count := 1 } ] } :=
  ⟨by decide, accessors_return_fields 2 sample 1 (by decide) (by decide) (by decide), by rfl⟩

/-! ## C9: no bounds validation -/

theorem channel_at_bad {N : Nat} {s : ws2811_t} (hlen : s.channel.length = N) (bad : Int)
    (hbad : bad < 0 ∨ (N : Int) ≤ bad) : channel_at s bad = none := by
  unfold channel_at
  by_cases hb : 0 ≤ bad
  · rw [if_pos hb, List.getElem?_eq_none (by omega)]
  · rw [if_neg hb]

/-- C9 as stated fails.  At the sample controller channel 0 has count = 3 in
an object of 16 bytes.  ws2811_set_bitmap with byteLength 16 > 3 * 4 reports
nothing and completes in a different controller state, in which slot 3, not
an active slot, holds bitmap bytes; ws2811_set_led with slot index 3, not
below count, likewise completes and writes that slot. -/
theorem unchecked_access_counterexample :
    ws2811_ok 2 sample ∧ ws2811_leds_count sample 0 = some (3, sample) ∧
    (3 : Int) * 4 < 16 ∧
    (∃ s' p, ws2811_set_bitmap sample 0 (List.replicate 16 7) 16 = some s' ∧ s' ≠ sample ∧
      ws2811_leds s' 0 = some (p, s') ∧
      led_at ByteOrder.little p 3 = some 0x07070707) ∧
    (∃ s' p, ws2811_set_led ByteOrder.little sample 0 3 0xAABBCCDD = some s' ∧ s' ≠ sample ∧
      ws2811_leds s' 0 = some (p, s') ∧
      led_at ByteOrder.little p 3 = some 0xAABBCCDD) := by
  refine ⟨by decide, rfl, by decide, ⟨_, _, rfl, by decide, rfl, by decide⟩,
    ⟨_, _, rfl, by decide, rfl, by decide⟩⟩

/-- C9, amended: the wrapper validates nothing and has no failure result.  On
a well-formed controller and a valid channel chan with count n whose LED
object is p0: ws2811_set_bitmap with byteLength len > n * 4 copies the len
bytes when len is at most the size of p0 and of the bitmap, slots at or beyond
count included, and is an out-of-bounds access otherwise; ws2811_set_led with
a slot index i >= n writes slot i when it lies inside p0 and is an
out-of-bounds access otherwise, as it is for a negative slot index j; and
with a channel index outside [0, RPI_PWM_CHANNELS) each of the five
operations is an out-of-bounds access. -/
theorem unchecked_access (e : ByteOrder) (N : Nat) (s : ws2811_t) (chan : Int)
    (a : List Nat) (len i j : Int) (v : Nat) (bad n : Int) (p0 : List Nat)
    (hok : ws2811_ok N s) (h0 : 0 ≤ chan) (h1 : chan < N)
    (hn : ws2811_leds_count s chan = some (n, s)) (hp : ws2811_leds s chan = some (p0, s))
    (hlen : n * 4 < len) (hi : n ≤ i) (hj : j < 0) (hbad : bad < 0 ∨ (N : Int) ≤ bad) :
    ∃ ch, channel_at s chan = some ch ∧
      ws2811_set_bitmap s chan a len =
        (if len ≤ p0.length ∧ len ≤ a.length then
          some (put_leds s chan ch (a.take len.toNat ++ p0.drop len.toNat))
        else none) ∧
      ws2811_set_led e s chan i v =
        (if 4 * i + 4 ≤ p0.length then
          some (put_leds s chan ch
            (p0.take (4 * i.toNat) ++ store32 e v ++ p0.drop (4 * i.toNat + 4)))
        else none) ∧
      ws2811_set_led e s chan j v = none ∧
      ws2811_set_led e s bad i v = none ∧
      ws2811_clear_channel s bad = none ∧
      ws2811_set_bitmap s bad a len = none ∧
      ws2811_leds s bad = none ∧
      ws2811_leds_count s bad = none := by
  obtain ⟨ch, hch, hcok⟩ := channel_at_of_ok hok h0 h1
  rw [leds_count_of_channel hch] at hn
  rw [leds_of_channel hch] at hp
  have hnc : ch.count = n := congrArg Prod.fst (Option.some.inj hn)
  have hpc : ch.leds = p0 := congrArg Prod.fst (Option.some.inj hp)
  have hc0 := hcok.1
  have hb := channel_at_bad hok.1 bad hbad
  subst hpc
  refine ⟨ch, hch, ?_, ?_, ?_, ?_, ?_, ?_, ?_, ?_⟩
  · have hl0 : 0 ≤ len := by omega
    unfold ws2811_set_bitmap
    rw [hch]
    simp only [size_arg, if_pos hl0, memcpy, store_bytes]
    by_cases ha : len.toNat ≤ a.length
    · have hla : (a.take len.toNat).length = len.toNat := by
        rw [List.length_take]; omega
      by_cases hc : len.toNat ≤ ch.leds.length
      · rw [if_pos ha, hla, if_pos (by omega), if_pos ⟨by omega, by omega⟩]
        simp only [List.take_zero, List.nil_append, Nat.zero_add]
      · rw [if_pos ha, hla, if_neg (by omega), if_neg (fun h => hc (by omega))]
    · rw [if_neg ha, if_neg (fun h => ha (by omega))]
  · have hi0 : 0 ≤ i := by omega
    unfold ws2811_set_led
    rw [hch]
    simp only [if_pos hi0, store_bytes, sizeof_led_t, store32_length]
    by_cases hc : 4 * i.toNat + 4 ≤ ch.leds.length
    · rw [if_pos hc, if_pos (by omega)]
    · rw [if_neg hc, if_neg (by omega)]
  · unfold ws2811_set_led
    rw [hch]
    simp only [if_neg (not_le.mpr hj)]
  · unfold ws2811_set_led
    rw [hb]
  · unfold ws2811_clear_channel
    rw [hb]
  · unfold ws2811_set_bitmap
    rw [hb]
  · unfold ws2811_leds
    rw [hb]
  · unfold ws2811_leds_count
    rw [hb]

/-- C9, amended, at the sample controller: byteLength 16 and slot index 3 on
channel 0 (count = 3), slot index -1, channel index 2. -/
theorem unchecked_access_witness :
    ws2811_ok 2 sample ∧
    ∃ ch, channel_at sample 0 = some ch ∧
      ws2811_set_bitmap sample 0 (List.replicate 16 7) 16 =
        (if (16 : Int) ≤ ([1, 2, 3, 4, 5, 6, 7, 8, 9, 10, 11, 12, 13, 14, 15, 16] : List Nat).length ∧
            (16 : Int) ≤ (List.replicate 16 7).length then
          some (put_leds sample 0 ch ((List.replicate 16 7).take (16 : Int).toNat ++
            ([1, 2, 3, 4, 5, 6, 7, 8, 9, 10, 11, 12, 13, 14, 15, 16] : List Nat).drop
              (16 : Int).toNat))
        else none) ∧
      ws2811_set_led ByteOrder.little sample 0 3 0xAABBCCDD =
        (if 4 * (3 : Int) + 4 ≤
            ([1, 2, 3, 4, 5, 6, 7, 8, 9, 10, 11, 12, 13, 14, 15, 16] : List Nat).length then
          some (put_leds sample 0 ch
            (([1, 2, 3, 4, 5, 6, 7, 8, 9, 10, 11, 12, 13, 14, 15, 16] : List Nat).take
                (4 * (3 : Int).toNat) ++ store32 ByteOrder.little 0xAABBCCDD ++
              ([1, 2, 3, 4, 5, 6, 7, 8, 9, 10, 11, 12, 13, 14, 15, 16] : List Nat).drop
                (4 * (3 : Int).toNat + 4)))
        else none) ∧
      ws2811_set_led ByteOrder.little sample 0 (-1) 0xAABBCCDD = none ∧
      ws2811_set_led ByteOrder.little sample 2 3 0xAABBCCDD = none ∧
      ws2811_clear_channel sample 2 = none ∧
      ws2811_set_bitmap sample 2 (List.replicate 16 7) 16 = none ∧
      ws2811_leds sample 2 = none ∧
      ws2811_leds_count sample 2 = none :=
  ⟨by decide, unchecked_access ByteOrder.little 2 sample 0 (List.replicate 16 7) 16 3 (-1)
    0xAABBCCDD 2 3 [1, 2, 3, 4, 5, 6, 7, 8, 9, 10, 11, 12, 13, 14, 15, 16] (by decide)
    (by decide) (by decide) (by rfl) (by rfl) (by decide) (by decide) (by decide)
    (by decide)⟩

/-! ## C11: the accesses stay in bounds -/

/-- A store that ends at or before the end of slot n - 1 writes within the
first n slots. -/
theorem store_bytes_within {mem src m : List Nat} {off : Nat} {n : Int}
    (h : store_bytes mem off src = some m) (hb : ((off + src.length : Nat) : Int) ≤ 4 * n) :
    written_within n mem m := by
  refine ⟨store_bytes_length h, ?_⟩
  intro b hbn
  unfold sizeof_led_t at hbn
  rw [store_bytes_getElem? h, if_neg (by omega)]

/-- C11 as stated fails: at the sample controller every stated precondition
holds (channel index 0 of 2, count = 3 inside an object of 16 bytes,
0 <= 12 <= 3 * 4), yet ws2811_set_bitmap with a bitmap of 4 bytes and
byteLength 12 reaches the out-of-bounds branch: memcpy reads 12 bytes from an
object of 4. -/
theorem accesses_in_bounds_counterexample :
    ws2811_ok 2 sample ∧ (0 : Int) ≤ 0 ∧ (0 : Int) < (2 : Nat) ∧
    ws2811_leds_count sample 0 = some (3, sample) ∧
    (0 : Int) ≤ 12 ∧ (12 : Int) ≤ 3 * 4 ∧
    ws2811_set_bitmap sample 0 [1, 2, 3, 4] 12 = none := by
  refine ⟨by decide, by decide, by decide, rfl, by decide, by decide, rfl⟩

/-- C11, amended: on a well-formed controller (every count is non-negative
and no larger than the allocated length of leds) and for a valid channel
index chan with count n and LED object p0, none of ws2811_set_led with
0 <= index < n, ws2811_clear_channel, and ws2811_set_bitmap with
0 <= len <= n * 4 and a bitmap that holds at least len bytes reaches the
out-of-bounds branch: each returns a controller state, and each writes within
the n slots of the LED sequence of chan. -/
theorem accesses_in_bounds (N : Nat) (s : ws2811_t) (chan n : Int) (p0 : List Nat)
    (hok : ws2811_ok N s) (h0 : 0 ≤ chan) (h1 : chan < N)
    (hn : ws2811_leds_count s chan = some (n, s)) (hp : ws2811_leds s chan = some (p0, s)) :
    (∀ (e : ByteOrder) (index : Int) (v : Nat), 0 ≤ index → index < n →
      ∃ s' p, ws2811_set_led e s chan index v = some s' ∧
        ws2811_leds s' chan = some (p, s') ∧ written_within n p0 p) ∧
    (∃ s' p, ws2811_clear_channel s chan = some s' ∧
      ws2811_leds s' chan = some (p, s') ∧ written_within n p0 p) ∧
    (∀ (a : List Nat) (len : Int), 0 ≤ len → len ≤ n * 4 → len ≤ a.length →
      ∃ s' p, ws2811_set_bitmap s chan a len = some s' ∧
        ws2811_leds s' chan = some (p, s') ∧ written_within n p0 p) := by
  obtain ⟨ch, hch, hcok⟩ := channel_at_of_ok hok h0 h1
  rw [leds_count_of_channel hch] at hn
  rw [leds_of_channel hch] at hp
  have hnc : ch.count = n := congrArg Prod.fst (Option.some.inj hn)
  have hpc : ch.leds = p0 := congrArg Prod.fst (Option.some.inj hp)
  subst hpc
  have hc0 := hcok.1
  have hcap := hcok.2
  unfold sizeof_led_t at hcap
  refine ⟨?_, ?_, ?_⟩
  · intro e index v hi0 hi
    obtain ⟨m, hm, hset⟩ := set_led_of_channel e hch index v hi0 (by omega)
    refine ⟨_, m, hset, leds_of_channel (channel_at_put_leds_same hch m),
      store_bytes_within hm ?_⟩
    rw [store32_length]
    omega
  · obtain ⟨hm, hclr⟩ := clear_channel_of_channel hch hcok
    refine ⟨_, _, hclr, leds_of_channel (channel_at_put_leds_same hch _),
      store_bytes_within hm ?_⟩
    rw [List.length_replicate]
    omega
  · intro a len hl0 hl1 hla
    obtain ⟨m, hm, hset⟩ := set_bitmap_of_channel hch a len hl0 (by omega) (by omega)
    refine ⟨_, m, hset, leds_of_channel (channel_at_put_leds_same hch m),
      store_bytes_within hm ?_⟩
    rw [List.length_take]
    omega

/-- C11, amended, at the sample controller (channel 0: count = 3, slot index
2, byteLength 12) and at an unused channel (count = 0, byteLength 0). -/
theorem accesses_in_bounds_witness :
    ws2811_ok 2 sample ∧
    (∃ s' p, ws2811_set_led ByteOrder.little sample 0 2 0xAABBCCDD = some s' ∧
      ws2811_leds s' 0 = some (p, s') ∧
      written_within 3 [1, 2, 3, 4, 5, 6, 7, 8, 9, 10, 11, 12, 13, 14, 15, 16] p) ∧
    (∃ s' p, ws2811_clear_channel sample 0 = some s' ∧
      ws2811_leds s' 0 = some (p, s') ∧
      written_within 3 [1, 2, 3, 4, 5, 6, 7, 8, 9, 10, 11, 12, 13, 14, 15, 16] p) ∧
    (∃ s' p, ws2811_set_bitmap sample 0 (List.replicate 12 7) 12 = some s' ∧
      ws2811_leds s' 0 = some (p, s') ∧
      written_within 3 [1, 2, 3, 4, 5, 6, 7, 8, 9, 10, 11, 12, 13, 14, 15, 16] p) ∧
    ws2811_ok 2 sample_unused ∧
    (∃ s' p, ws2811_clear_channel sample_unused 1 = some s' ∧
      ws2811_leds s' 1 = some (p, s') ∧ written_within 0 [] p) ∧
    (∃ s' p, ws2811_set_bitmap sample_unused 1 [] 0 = some s' ∧
      ws2811_leds s' 1 = some (p, s') ∧ written_within 0 [] p) :=
  ⟨by decide,
    (accesses_in_bounds 2 sample 0 3 [1, 2, 3, 4, 5, 6, 7, 8, 9, 10, 11, 12, 13, 14, 15, 16]
      (by decide) (by decide) (by decide) (by rfl) (by rfl)).1 ByteOrder.little 2 0xAABBCCDD
      (by decide) (by decide),
    (accesses_in_bounds 2 sample 0 3 [1, 2, 3, 4, 5, 6, 7, 8, 9, 10, 11, 12, 13, 14, 15, 16]
      (by decide) (by decide) (by decide) (by rfl) (by rfl)).2.1,
    (accesses_in_bounds 2 sample 0 3 [1, 2, 3, 4, 5, 6, 7, 8, 9, 10, 11, 12, 13, 14, 15, 16]
      (by decide) (by decide) (by decide) (by rfl) (by rfl)).2.2 (List.replicate 12 7) 12
      (by decide) (by decide) (by decide),
    by decide,
    (accesses_in_bounds 2 sample_unused 1 0 [] (by decide) (by decide) (by decide) (by rfl)
      (by rfl)).2.1,
    (accesses_in_bounds 2 sample_unused 1 0 [] (by decide) (by decide) (by decide) (by rfl)
      (by rfl)).2.2 [] 0 (by decide) (by decide) (by decide)⟩

/-! ## C12: shape and other channels -/

theorem put_leds_keeps_shape {s : ws2811_t} {chan : Int} {ch : ws2811_channel_t}
    (h : channel_at s chan = some ch) (m : List Nat) (hm : m.length = ch.leds.length) :
    keeps_shape s (put_leds s chan ch m) := by
  have hc0 := (channel_at_eq_some h).1
  have hsame := channel_at_put_leds_same h m
  refine ⟨by simp only [put_leds, List.length_set], ?_, ?_⟩
  · intro c n hcn
    obtain ⟨x, hx, hxn⟩ := leds_count_inv hcn
    by_cases hc : c = chan
    · subst hc
      rw [h] at hx
      have hxc : ch = x := Option.some.inj hx
      have := leds_count_of_channel hsame
      rw [this]
      simp only [← hxn, ← hxc]
    · have hoth := channel_at_put_leds_other s ch m hc0 hc
      rw [hx] at hoth
      rw [leds_count_of_channel hoth, hxn]
  · intro c p hcp
    obtain ⟨x, hx, hxp⟩ := leds_inv hcp
    by_cases hc : c = chan
    · subst hc
      rw [h] at hx
      have hxc : ch = x := Option.some.inj hx
      refine ⟨m, leds_of_channel hsame, ?_⟩
      rw [hm, hxc, hxp]
    · have hoth := channel_at_put_leds_other s ch m hc0 hc
      rw [hx] at hoth
      exact ⟨p, by rw [leds_of_channel hoth, hxp], rfl⟩

theorem put_leds_keeps_other_channels {s : ws2811_t} {chan : Int} {ch : ws2811_channel_t}
    (h : channel_at s chan = some ch) (m : List Nat) :
    keeps_other_channels chan s (put_leds s chan ch m) := by
  intro c hc p hcp
  obtain ⟨x, hx, hxp⟩ := leds_inv hcp
  have hoth := channel_at_put_leds_other s ch m (channel_at_eq_some h).1 hc
  rw [hx] at hoth
  rw [leds_of_channel hoth, hxp]

/-- C12, the part about ws2811_set_led, ws2811_clear_channel and
ws2811_set_bitmap (ws2811_clear_all itself has no well-formed source text):
on a well-formed controller and for a valid channel index chan with count n,
each of ws2811_set_led with 0 <= index < n, ws2811_clear_channel, and
ws2811_set_bitmap with 0 <= len <= n * 4 and a bitmap that holds len bytes
returns a controller with as many channels, in which every channel (chan
included) has the count and the sequence length it had, and in which every
channel other than chan has the LED sequence, hence every slot value, it
had. -/
theorem mutators_keep_shape (N : Nat) (s : ws2811_t) (chan n : Int)
    (hok : ws2811_ok N s) (h0 : 0 ≤ chan) (h1 : chan < N)
    (hn : ws2811_leds_count s chan = some (n, s)) :
    (∀ (e : ByteOrder) (index : Int) (v : Nat), 0 ≤ index → index < n →
      ∃ s', ws2811_set_led e s chan index v = some s' ∧
        keeps_shape s s' ∧ keeps_other_channels chan s s') ∧
    (∃ s', ws2811_clear_channel s chan = some s' ∧
      keeps_shape s s' ∧ keeps_other_channels chan s s') ∧
    (∀ (a : List Nat) (len : Int), 0 ≤ len → len ≤ n * 4 → len ≤ a.length →
      ∃ s', ws2811_set_bitmap s chan a len = some s' ∧
        keeps_shape s s' ∧ keeps_other_channels chan s s') := by
  obtain ⟨ch, hch, hcok⟩ := channel_at_of_ok hok h0 h1
  rw [leds_count_of_channel hch] at hn
  have hnc : ch.count = n := congrArg Prod.fst (Option.some.inj hn)
  have hc0 := hcok.1
  have hcap := hcok.2
  unfold sizeof_led_t at hcap
  refine ⟨?_, ?_, ?_⟩
  · intro e index v hi0 hi
    obtain ⟨m, hm, hset⟩ := set_led_of_channel e hch index v hi0 (by omega)
    exact ⟨_, hset, put_leds_keeps_shape hch m (store_bytes_length hm),
      put_leds_keeps_other_channels hch m⟩
  · obtain ⟨hm, hclr⟩ := clear_channel_of_channel hch hcok
    exact ⟨_, hclr, put_leds_keeps_shape hch _ (store_bytes_length hm),
      put_leds_keeps_other_channels hch _⟩
  · intro a len hl0 hl1 hla
    obtain ⟨m, hm, hset⟩ := set_bitmap_of_channel hch a len hl0 (by omega) (by omega)
    exact ⟨_, hset, put_leds_keeps_shape hch m (store_bytes_length hm),
      put_leds_keeps_other_channels hch m⟩

/-- C12, the part about the three single-channel mutators, at the sample
controller (channel 1: count = 1, slot index 0, byteLength 3) and at an unused
channel (count = 0, byteLength 0). -/
theorem mutators_keep_shape_witness :
    ws2811_ok 2 sample ∧
    (∃ s', ws2811_set_led ByteOrder.big sample 1 0 0x11223344 = some s' ∧
      keeps_shape sample s' ∧ keeps_other_channels 1 sample s') ∧
    (∃ s', ws2811_clear_channel sample 1 = some s' ∧
      keeps_shape sample s' ∧ keeps_other_channels 1 sample s') ∧
    (∃ s', ws2811_set_bitmap sample 1 [9, 8, 7] 3 = some s' ∧
      keeps_shape sample s' ∧ keeps_other_channels 1 sample s') ∧
    ws2811_ok 2 sample_unused ∧
    (∃ s', ws2811_clear_channel sample_unused 0 = some s' ∧
      keeps_shape sample_unused s' ∧ keeps_other_channels 0 sample_unused s') ∧
    (∃ s', ws2811_set_bitmap sample_unused 0 [] 0 = some s' ∧
      keeps_shape sample_unused s' ∧ keeps_other_channels 0 sample_unused s') :=
  ⟨by decide,
    (mutators_keep_shape 2 sample 1 1 (by decide) (by decide) (by decide) (by rfl)).1
      ByteOrder.big 0 0x11223344 (by decide) (by decide),
    (mutators_keep_shape 2 sample 1 1 (by decide) (by decide) (by decide) (by rfl)).2.1,
    (mutators_keep_shape 2 sample 1 1 (by decide) (by decide) (by decide) (by rfl)).2.2
      [9, 8, 7] 3 (by decide) (by decide) (by decide),
    by decide,
    (mutators_keep_shape 2 sample_unused 0 0 (by decide) (by decide) (by decide)
      (by rfl)).2.1,
    (mutators_keep_shape 2 sample_unused 0 0 (by decide) (by decide) (by decide)
      (by rfl)).2.2 [] 0 (by decide) (by decide) (by decide)⟩

/-! ## C13: a byteLength that is not a multiple of the slot size -/

/-- The bytes of the LED object after a bitmap of L bytes is copied to its
start. -/
theorem bitmap_store_getElem? {leds a m : List Nat} {L : Nat}
    (h : store_bytes leds 0 (a.take L) = some m) (hL : L ≤ a.length) (b : Nat) :
    m[b]? = if b < L then a[b]? else leds[b]? := by
  have hlen : (a.take L).length = L := by
    rw [List.length_take]; omega
  rw [store_bytes_getElem? h, hlen, Nat.sub_zero, Nat.zero_add]
  by_cases hb : b < L
  · rw [if_pos ⟨Nat.zero_le b, hb⟩, if_pos hb, List.getElem?_take, if_pos hb]
  · rw [if_neg (fun hc => hb hc.2), if_neg hb]

/-- C13: on a well-formed controller, for a valid channel index chan with
count n and a byteLength len = 4 * q + r with 0 < r < 4 and len <= 4 * n of a
bitmap that holds len bytes, ws2811_set_bitmap returns, and afterwards every
slot k < q reads the value of slot k of the bitmap, byte 4 * q + j of the LED
sequence is byte 4 * q + j of the bitmap for j < r and is the old byte for
r <= j < 4, and every slot with index above q reads what it read before. -/
theorem set_bitmap_partial_slot (e : ByteOrder) (N : Nat) (s : ws2811_t) (chan : Int)
    (a : List Nat) (n : Int) (q r : Nat)
    (hok : ws2811_ok N s) (h0 : 0 ≤ chan) (h1 : chan < N)
    (hn : ws2811_leds_count s chan = some (n, s))
    (hr0 : 0 < r) (hr : r < 4) (hl1 : ((4 * q + r : Nat) : Int) ≤ 4 * n)
    (hla : 4 * q + r ≤ a.length) :
    ∃ s' p p0, ws2811_set_bitmap s chan a ((4 * q + r : Nat) : Int) = some s' ∧
      ws2811_leds s chan = some (p0, s) ∧
      ws2811_leds s' chan = some (p, s') ∧
      (∀ k : Nat, k < q → ∃ w, led_at e a (k : Int) = some w ∧ led_at e p (k : Int) = some w) ∧
      (∀ j : Nat, j < r → ∃ x, a[4 * q + j]? = some x ∧ p[4 * q + j]? = some x) ∧
      (∀ j : Nat, r ≤ j → j < 4 → ∃ x, p0[4 * q + j]? = some x ∧ p[4 * q + j]? = some x) ∧
      (∀ k : Int, (q : Int) < k → led_at e p k = led_at e p0 k) := by
  obtain ⟨ch, hch, hcok⟩ := channel_at_of_ok hok h0 h1
  rw [leds_count_of_channel hch] at hn
  have hnc : ch.count = n := congrArg Prod.fst (Option.some.inj hn)
  have hcap := hcok.2
  unfold sizeof_led_t at hcap
  have hL : (((4 * q + r : Nat) : Int)).toNat = 4 * q + r := Int.toNat_ofNat _
  obtain ⟨m, hm, hset⟩ := set_bitmap_of_channel hch a ((4 * q + r : Nat) : Int)
    (by omega) (by omega) (by omega)
  rw [hL] at hm
  have hbyte := bitmap_store_getElem? hm hla
  have hmlen := store_bytes_length hm
  refine ⟨_, m, ch.leds, hset, leds_of_channel hch,
    leds_of_channel (channel_at_put_leds_same hch m), ?_, ?_, ?_, ?_⟩
  · intro k hk
    have hkn : (k : Int).toNat = k := Int.toNat_ofNat k
    have g : ∀ b, b < 4 * q + r → m.getD b 0 = a.getD b 0 := by
      intro b hb
      simp only [List.getD_eq_getElem?_getD, hbyte b, if_pos hb]
    refine ⟨word32 e (a.getD (4 * k) 0) (a.getD (4 * k + 1) 0) (a.getD (4 * k + 2) 0)
      (a.getD (4 * k + 3) 0), ?_, ?_⟩
    · rw [led_at_eq, hkn, if_pos ⟨by omega, by omega⟩]
    · rw [led_at_eq, hkn, hmlen, if_pos ⟨by omega, by omega⟩, g _ (by omega), g _ (by omega),
        g _ (by omega), g _ (by omega)]
  · intro j hj
    have hlt : 4 * q + j < a.length := by omega
    exact ⟨a[4 * q + j], List.getElem?_eq_getElem hlt, by
      rw [hbyte, if_pos (by omega), List.getElem?_eq_getElem hlt]⟩
  · intro j hj1 hj2
    have hlt : 4 * q + j < ch.leds.length := by omega
    exact ⟨ch.leds[4 * q + j], List.getElem?_eq_getElem hlt, by
      rw [hbyte, if_neg (by omega), List.getElem?_eq_getElem hlt]⟩
  · intro k hk
    apply led_at_store_other e hm k
    rw [List.length_take]
    omega

/-- C13 at the sample controller: channel 0 (count = 3), byteLength
4 * 1 + 1 = 5. -/
theorem set_bitmap_partial_slot_witness :
    ws2811_ok 2 sample ∧
    ∃ s' p p0, ws2811_set_bitmap sample 0 [21, 22, 23, 24, 25] ((4 * 1 + 1 : Nat) : Int) =
        some s' ∧
      ws2811_leds sample 0 = some (p0, sample) ∧
      ws2811_leds s' 0 = some (p, s') ∧
      (∀ k : Nat, k < 1 → ∃ w, led_at ByteOrder.little [21, 22, 23, 24, 25] (k : Int) = some w ∧
        led_at ByteOrder.little p (k : Int) = some w) ∧
      (∀ j : Nat, j < 1 → ∃ x, [21, 22, 23, 24, 25][4 * 1 + j]? = some x ∧
        p[4 * 1 + j]? = some x) ∧
      (∀ j : Nat, 1 ≤ j → j < 4 → ∃ x, p0[4 * 1 + j]? = some x ∧ p[4 * 1 + j]? = some x) ∧
      (∀ k : Int, ((1 : Nat) : Int) < k →
        led_at ByteOrder.little p k = led_at ByteOrder.little p0 k) :=
  ⟨by decide, set_bitmap_partial_slot ByteOrder.little 2 sample 0 [21, 22, 23, 24, 25] 3 1 1
    (by decide) (by decide) (by decide) (by rfl) (by decide) (by decide) (by decide)
    (by decide)⟩

/-! ## C14: clearing twice -/

/-- C14, the part about ws2811_clear_channel (ws2811_clear_all itself has no
well-formed source text): on a well-formed controller, ws2811_clear_channel on
a valid channel index returns a state on which ws2811_clear_channel for the
same index returns that same state. -/
theorem clear_channel_idempotent (N : Nat) (s : ws2811_t) (chan : Int)
    (hok : ws2811_ok N s) (h0 : 0 ≤ chan) (h1 : chan < N) :
    ∃ s', ws2811_clear_channel s chan = some s' ∧ ws2811_clear_channel s' chan = some s' := by
  obtain ⟨ch, hch, hcok⟩ := channel_at_of_ok hok h0 h1
  have hclr := (clear_channel_of_channel hch hcok).2
  have hch' : channel_at (put_leds s chan ch (zeroed ch).leds) chan = some (zeroed ch) :=
    channel_at_put_leds_same hch (zeroed ch).leds
  have hclr' := (clear_channel_of_channel hch' (zeroed_ok hcok)).2
  rw [zeroed_zeroed, put_leds_self hch'] at hclr'
  exact ⟨_, hclr, hclr'⟩

/-- C14, the part about ws2811_clear_channel, at the sample controller
(channel 0) and at an unused channel. -/
theorem clear_channel_idempotent_witness :
    ws2811_ok 2 sample ∧
    (∃ s', ws2811_clear_channel sample 0 = some s' ∧ ws2811_clear_channel s' 0 = some s') ∧
    ws2811_ok 2 sample_unused ∧
    (∃ s', ws2811_clear_channel sample_unused 1 = some s' ∧
      ws2811_clear_channel s' 1 = some s') :=
  ⟨by decide, clear_channel_idempotent 2 sample 0 (by decide) (by decide) (by decide),
    by decide, clear_channel_idempotent 2 sample_unused 1 (by decide) (by decide) (by decide)⟩

end Ws2811
